import Mathlib

/-!
Verification of the WanderMap client-side data-synchronization and
coordinate-normalization layer.

The definitions below are a shallow embedding of the TypeScript source:
  - the longitude wraparound formula of the drag-end handler
    (components DraggableMarker / MapEvents),
  - the JavaScript value model needed by the validity checks
    (isValidMemory in services/storage.ts, isValidLatLng in MapWrapper),
  - the local-fallback store (getLocalMemories / saveLocalMemories),
  - the dual-backend data operations (getMemories / addMemory /
    updateMemory / deleteMemory),
  - the application-level handlers (handleDeleteMemory, handleSaveMemory,
    filteredMemories) from App.tsx.

JavaScript numbers are modelled as a sum of NaN, the two infinities and a
finite rational; the remainder operator is the truncated remainder of
JavaScript. Asynchronous outcomes (remote error or success, localStorage
write success or quota failure) are passed as explicit parameters.
-/

namespace WanderMap

/-! ## Coordinate canonicalizer

Source: the drag-end handler computes
  ((pos.lng + 180) % 360 + 360) % 360 - 180
where % is the JavaScript remainder (truncated division). -/

/-- JavaScript truncation toward zero, as used by the % operator. -/
def jsTrunc (q : ℚ) : ℤ := if 0 ≤ q then ⌊q⌋ else ⌈q⌉

/-- The JavaScript remainder a % b for b = a fixed positive divisor:
a - b * trunc (a / b). -/
def jsMod (a b : ℚ) : ℚ := a - b * ((jsTrunc (a / b) : ℤ) : ℚ)

/-- The longitude normalization applied at marker drag-end:
((lng + 180) % 360 + 360) % 360 - 180. -/
def normalizeLongitude (lng : ℚ) : ℚ :=
  jsMod (jsMod (lng + 180) 360 + 360) 360 - 180

lemma jsMod_bounds_nonneg {a : ℚ} (ha : 0 ≤ a) :
    0 ≤ jsMod a 360 ∧ jsMod a 360 < 360 := by
  have h360 : (0 : ℚ) < 360 := by norm_num
  have ht : 0 ≤ a / 360 := div_nonneg ha h360.le
  have key : 360 * (a / 360) = a := by field_simp
  have hle : ((⌊a / 360⌋ : ℤ) : ℚ) ≤ a / 360 := Int.floor_le _
  have hlt : a / 360 < ((⌊a / 360⌋ : ℤ) : ℚ) + 1 := Int.lt_floor_add_one _
  have h1 := mul_le_mul_of_nonneg_left hle h360.le
  have h2 := mul_lt_mul_of_pos_left hlt h360
  unfold jsMod jsTrunc
  rw [if_pos ht]
  constructor <;> nlinarith [h1, h2, key]

lemma jsMod_bounds_neg {a : ℚ} (ha : a < 0) :
    -360 < jsMod a 360 ∧ jsMod a 360 ≤ 0 := by
  have h360 : (0 : ℚ) < 360 := by norm_num
  have ht : a / 360 < 0 := div_neg_of_neg_of_pos ha h360
  have key : 360 * (a / 360) = a := by field_simp
  have hle : a / 360 ≤ ((⌈a / 360⌉ : ℤ) : ℚ) := Int.le_ceil _
  have hlt : ((⌈a / 360⌉ : ℤ) : ℚ) < a / 360 + 1 := Int.ceil_lt_add_one _
  have h1 := mul_le_mul_of_nonneg_left hle h360.le
  have h2 := mul_lt_mul_of_pos_left hlt h360
  unfold jsMod jsTrunc
  rw [if_neg (not_le.mpr ht)]
  constructor <;> nlinarith [h1, h2, key]

lemma jsMod_id_of_lt {a : ℚ} (h0 : 0 ≤ a) (h1 : a < 360) : jsMod a 360 = a := by
  have h360 : (0 : ℚ) < 360 := by norm_num
  have ht : 0 ≤ a / 360 := div_nonneg h0 h360.le
  have hlt1 : a / 360 < 1 := (div_lt_one h360).mpr h1
  have hfl : ⌊a / 360⌋ = 0 := Int.floor_eq_zero_iff.mpr (Set.mem_Ico.mpr ⟨ht, hlt1⟩)
  unfold jsMod jsTrunc
  rw [if_pos ht, hfl]
  push_cast
  ring

lemma jsMod_shift {a : ℚ} (h0 : 0 ≤ a) (h1 : a < 360) :
    jsMod (a + 360) 360 = a := by
  have h360 : (0 : ℚ) < 360 := by norm_num
  have ht : 0 ≤ (a + 360) / 360 := div_nonneg (by linarith) h360.le
  have hl : (1 : ℚ) ≤ (a + 360) / 360 := by
    rw [le_div_iff₀ h360]; linarith
  have hr : (a + 360) / 360 < 2 := by
    rw [div_lt_iff₀ h360]; linarith
  have hfl : ⌊(a + 360) / 360⌋ = 1 := by
    refine Int.floor_eq_iff.mpr ⟨?_, ?_⟩
    · exact_mod_cast hl
    · push_cast; linarith
  unfold jsMod jsTrunc
  rw [if_pos ht, hfl]
  push_cast
  ring

lemma jsMod_id_of_neg {a : ℚ} (h0 : -360 < a) (h1 : a < 0) :
    jsMod a 360 = a := by
  have h360 : (0 : ℚ) < 360 := by norm_num
  have ht : a / 360 < 0 := div_neg_of_neg_of_pos h1 h360
  have hgt : (-1 : ℚ) < a / 360 := (lt_div_iff₀ h360).mpr (by linarith)
  have hfl : ⌈a / 360⌉ = 0 := Int.ceil_eq_zero_iff.mpr (Set.mem_Ioc.mpr ⟨hgt, ht.le⟩)
  unfold jsMod jsTrunc
  rw [if_neg (not_le.mpr ht), hfl]
  push_cast
  ring

lemma normalizeLongitude_at_190 : normalizeLongitude 190 = -170 := by
  have s10 : jsMod (10 + 360) 360 = 10 :=
    jsMod_shift (show (0 : ℚ) ≤ 10 by norm_num) (show (10 : ℚ) < 360 by norm_num)
  unfold normalizeLongitude
  rw [show (190 : ℚ) + 180 = 10 + 360 by norm_num, s10, s10]
  norm_num

lemma normalizeLongitude_at_neg200 : normalizeLongitude (-200) = 160 := by
  have hneg : jsMod (-20) 360 = -20 :=
    jsMod_id_of_neg (show (-360 : ℚ) < -20 by norm_num) (show (-20 : ℚ) < 0 by norm_num)
  have h340 : jsMod 340 360 = 340 :=
    jsMod_id_of_lt (show (0 : ℚ) ≤ 340 by norm_num) (show (340 : ℚ) < 360 by norm_num)
  unfold normalizeLongitude
  rw [show (-200 : ℚ) + 180 = -20 by norm_num, hneg,
    show (-20 : ℚ) + 360 = 340 by norm_num, h340]
  norm_num

lemma normalizeLongitude_at_180 : normalizeLongitude 180 = -180 := by
  have s0 : jsMod (0 + 360) 360 = 0 :=
    jsMod_shift (show (0 : ℚ) ≤ 0 by norm_num) (show (0 : ℚ) < 360 by norm_num)
  unfold normalizeLongitude
  rw [show (180 : ℚ) + 180 = 0 + 360 by norm_num, s0,
    show (0 : ℚ) + 360 = 0 + 360 by norm_num, s0]
  norm_num

/-- The raw range fact: every normalized longitude lies in [-180, 180). -/
theorem normalizeLongitude_bounds (x : ℚ) :
    -180 ≤ normalizeLongitude x ∧ normalizeLongitude x < 180 := by
  unfold normalizeLongitude
  have hb1 : -360 < jsMod (x + 180) 360 ∧ jsMod (x + 180) 360 < 360 := by
    rcases le_or_lt 0 (x + 180) with h | h
    · have hb := jsMod_bounds_nonneg h
      exact ⟨by linarith [hb.1], hb.2⟩
    · have hb := jsMod_bounds_neg h
      exact ⟨hb.1, by linarith [hb.2]⟩
  have h2 := jsMod_bounds_nonneg
    (show 0 ≤ jsMod (x + 180) 360 + 360 by linarith [hb1.1])
  exact ⟨by linarith [h2.1], by linarith [h2.2]⟩

/-- Values already in [-180, 180) are fixed by the normalization. -/
theorem normalizeLongitude_fixed {z : ℚ} (h0 : -180 ≤ z) (h1 : z < 180) :
    normalizeLongitude z = z := by
  unfold normalizeLongitude
  rw [jsMod_id_of_lt (show (0 : ℚ) ≤ z + 180 by linarith)
    (show z + 180 < 360 by linarith)]
  rw [jsMod_shift (show (0 : ℚ) ≤ z + 180 by linarith)
    (show z + 180 < 360 by linarith)]
  ring

/-- Claim C1, counterexample: the claim says the drag-end normalization maps
into (-180, 180] and sends 180 to 180; in fact it sends 180 to -180, which
is outside (-180, 180]. -/
theorem claim1_counterexample :
    normalizeLongitude 180 = -180 ∧ ¬(-180 < normalizeLongitude 180) ∧
      normalizeLongitude 180 ≠ 180 := by
  refine ⟨normalizeLongitude_at_180, ?_, ?_⟩
  · rw [normalizeLongitude_at_180]
    norm_num
  · rw [normalizeLongitude_at_180]
    norm_num

/-- Claim C1, amended: for every rational longitude x, the drag-end
wraparound formula returns a value in the half-open interval [-180, 180);
input 190 yields -170, input -200 yields 160, and input 180 yields -180. -/
theorem claim1_range :
    (∀ x : ℚ, -180 ≤ normalizeLongitude x ∧ normalizeLongitude x < 180) ∧
      normalizeLongitude 190 = -170 ∧ normalizeLongitude (-200) = 160 ∧
      normalizeLongitude 180 = -180 :=
  ⟨normalizeLongitude_bounds, normalizeLongitude_at_190,
    normalizeLongitude_at_neg200, normalizeLongitude_at_180⟩

/-- Claim C6: the drag-end longitude normalization is idempotent; over the
exact rational model the equality is exact, so it holds in particular up to
floating-point epsilon. -/
theorem claim6_idempotent (x : ℚ) :
    normalizeLongitude (normalizeLongitude x) = normalizeLongitude x :=
  normalizeLongitude_fixed (normalizeLongitude_bounds x).1
    (normalizeLongitude_bounds x).2

/-! ## JavaScript value model

The storage layer (services/storage.ts) validates arbitrary parsed JSON
values, so we model JavaScript numbers (with NaN and the infinities) and
untyped JavaScript values explicitly. -/

/-- A JavaScript number: NaN, one of the infinities, or a finite value
(modelled as an exact rational). -/
inductive JSNum where
  | nan
  | posInf
  | negInf
  | finite (q : ℚ)
deriving DecidableEq

/-- Number.isNaN on a value already known to be a number (isValidMemory and
isValidLatLng only call isNaN after a typeof number guard). -/
def JSNum.isNaN : JSNum → Bool
  | .nan => true
  | _ => false

/-- A JavaScript number is finite when it is neither NaN nor infinite. -/
def JSNum.isFinite : JSNum → Bool
  | .finite _ => true
  | _ => false

/-- An untyped JavaScript value as it may occur in a parsed JSON blob or a
remote row. Field access on non-objects yields undefined, modelled as
Option.none at the access site. -/
inductive JSVal where
  | num (n : JSNum)
  | str (s : String)
  | bool (b : Bool)
  | nullV
  | arr (xs : List JSVal)
  | obj (fields : List (String × JSVal))

/-- JavaScript truthiness: false, 0, NaN, the empty string and null are
falsy; every object and array is truthy. -/
def JSVal.truthy : JSVal → Bool
  | .num .nan => false
  | .num (.finite q) => decide (q ≠ 0)
  | .num _ => true
  | .str s => decide (s ≠ "")
  | .bool b => b
  | .nullV => false
  | .arr _ => true
  | .obj _ => true

/-- First binding of a key in an object literal's field list. -/
def lookupField : List (String × JSVal) → String → Option JSVal
  | [], _ => none
  | (k, v) :: rest, key => if k = key then some v else lookupField rest key

/-- Property access m.k: defined bindings on objects, undefined (none)
everywhere else. -/
def getField (v : JSVal) (k : String) : Option JSVal :=
  match v with
  | .obj fs => lookupField fs k
  | _ => none

/-- typeof x === 'number' on a possibly-undefined value. -/
def typeofNumber : Option JSVal → Bool
  | some (.num _) => true
  | _ => false

/-- isNaN(x) under a typeof number guard (never reached otherwise). -/
def optIsNaN : Option JSVal → Bool
  | some (.num n) => n.isNaN
  | _ => false

/-- Truthiness of a possibly-undefined value (undefined is falsy). -/
def optTruthy : Option JSVal → Bool
  | some v => v.truthy
  | none => false

/-- services/storage.ts isValidMemory:
m && typeof m.lat === 'number' && !isNaN(m.lat) &&
typeof m.lng === 'number' && !isNaN(m.lng) && m.id. -/
def isValidMemory (m : JSVal) : Bool :=
  m.truthy &&
  typeofNumber (getField m "lat") && !optIsNaN (getField m "lat") &&
  typeofNumber (getField m "lng") && !optIsNaN (getField m "lng") &&
  optTruthy (getField m "id")

/-- components/MapWrapper.tsx isValidLatLng:
typeof lat === 'number' && !isNaN(lat) && typeof lng === 'number' &&
!isNaN(lng). -/
def isValidLatLng (lat lng : Option JSVal) : Bool :=
  typeofNumber lat && !optIsNaN lat && typeofNumber lng && !optIsNaN lng

/-- The markers actually placed on the map: MapWrapper skips every memory
failing isValidLatLng before rendering. -/
def renderableMemories (ms : List JSVal) : List JSVal :=
  ms.filter (fun m => isValidLatLng (getField m "lat") (getField m "lng"))

/-! ## Local fallback store

Source: getLocalMemories / saveLocalMemories in services/storage.ts. The
persisted blob is modelled at the level of its parse outcome: absent (no
key, or an empty string, both falsy), unparsable (JSON.parse throws), or a
parsed JavaScript value. -/

/-- The state of the persisted localStorage blob, as seen through
localStorage.getItem followed by JSON.parse. -/
inductive Blob where
  | absent
  | unparsable
  | parsed (v : JSVal)

mutual

/-- JSON.stringify on a single value: NaN and the infinities serialize to
null; structure is otherwise preserved. -/
def stringifyVal : JSVal → JSVal
  | .num (.finite q) => .num (.finite q)
  | .num _ => .nullV
  | .str s => .str s
  | .bool b => .bool b
  | .nullV => .nullV
  | .arr xs => .arr (stringifyList xs)
  | .obj fs => .obj (stringifyFields fs)

/-- JSON.stringify mapped over the elements of an array. -/
def stringifyList : List JSVal → List JSVal
  | [] => []
  | x :: xs => stringifyVal x :: stringifyList xs

/-- JSON.stringify mapped over the fields of an object. -/
def stringifyFields : List (String × JSVal) → List (String × JSVal)
  | [] => []
  | (k, v) :: fs => (k, stringifyVal v) :: stringifyFields fs

end

/-- getLocalMemories: parse the blob (catch-all returns []), take [] when
the parse result is not an array, and filter with isValidMemory. -/
def getLocalMemories : Blob → List JSVal
  | .absent => []
  | .unparsable => []
  | .parsed (.arr xs) => xs.filter isValidMemory
  | .parsed _ => []

/-- saveLocalMemories: localStorage.setItem of the stringified list. A
write failure (quota or otherwise) is caught and alerted, leaving the old
blob in place; no error is returned to the caller. The writeOk parameter
is the outcome of the underlying setItem call. -/
def saveLocalMemories (blob : Blob) (ms : List JSVal) (writeOk : Bool) : Blob :=
  if writeOk then .parsed (.arr (stringifyList ms)) else blob

/-! ## Dual-backend data operations

Source: getMemories / addMemory / updateMemory / deleteMemory in
services/storage.ts. The remote table is a list of raw rows; remote call
outcomes are explicit parameters. -/

/-- The outcome of the remote select in getMemories: either rows (already
ordered by the server according to the requested createdAt-descending
order) or an error. -/
inductive RemoteFetch where
  | ok (rows : List JSVal)
  | err

/-- The dual persistent state: the remote table's rows and the local
blob. -/
structure StoreState where
  remote : List JSVal
  blob : Blob

/-- JavaScript strict equality === on the primitive values an id field can
hold. NaN is never equal to itself; objects and arrays compare by
reference and are modelled as unequal. -/
def jsStrictEq : Option JSVal → Option JSVal → Bool
  | some (.str a), some (.str b) => decide (a = b)
  | some (.num (.finite a)), some (.num (.finite b)) => decide (a = b)
  | some (.num .posInf), some (.num .posInf) => true
  | some (.num .negInf), some (.num .negInf) => true
  | some (.bool a), some (.bool b) => a == b
  | some .nullV, some .nullV => true
  | none, none => true
  | _, _ => false

/-- The test m.id === id used by deleteMemory, where id is the string the
application passes in. -/
def idMatches (x : JSVal) (id : String) : Bool :=
  jsStrictEq (getField x "id") (some (.str id))

/-- getMemories: in remote mode, filter the fetched rows with
isValidMemory, falling back to the local store on error; in local mode,
read the local store. cfg is whether Supabase is configured. -/
def getMemories (cfg : Bool) (fetch : RemoteFetch) (blob : Blob) : List JSVal :=
  if cfg then
    match fetch with
    | .ok rows => rows.filter isValidMemory
    | .err => getLocalMemories blob
  else getLocalMemories blob

/-- addMemory: reject invalid records before any persistence attempt; in
remote mode issue an insert (an error is alerted and otherwise ignored);
in local mode append to the local list and save. -/
def addMemory (cfg remoteOk writeOk : Bool) (s : StoreState) (m : JSVal) :
    StoreState :=
  if isValidMemory m then
    if cfg then
      { s with remote := if remoteOk then s.remote ++ [m] else s.remote }
    else
      { s with blob := saveLocalMemories s.blob (getLocalMemories s.blob ++ [m]) writeOk }
  else s

/-- updateMemory: reject invalid records; in remote mode update the rows
whose id equals memory.id (an error is alerted and otherwise ignored); in
local mode map the replacement over the local list and save. -/
def updateMemory (cfg remoteOk writeOk : Bool) (s : StoreState) (m : JSVal) :
    StoreState :=
  if isValidMemory m then
    if cfg then
      let rows :=
        if remoteOk then
          s.remote.map (fun x => if jsStrictEq (getField x "id") (getField m "id") then m else x)
        else s.remote
      { s with remote := rows }
    else
      let ms :=
        (getLocalMemories s.blob).map
          (fun x => if jsStrictEq (getField x "id") (getField m "id") then m else x)
      { s with blob := saveLocalMemories s.blob ms writeOk }
  else s

/-- deleteMemory: in remote mode, return false on a remote error and true
on success; in local mode, filter the record out, save, and return true
unconditionally (a failed local write is only alerted). -/
def deleteMemory (cfg remoteOk writeOk : Bool) (s : StoreState) (id : String) :
    Bool × StoreState :=
  if cfg then
    if remoteOk then
      (true, { s with remote := s.remote.filter (fun x => !idMatches x id) })
    else (false, s)
  else
    let ms := (getLocalMemories s.blob).filter (fun x => !idMatches x id)
    (true, { s with blob := saveLocalMemories s.blob ms writeOk })

/-! ## Ordering by createdAt -/

/-- The createdAt field of a raw row, as a rational sort key (rows without
a finite numeric createdAt sort as 0). -/
def createdAtKey (m : JSVal) : ℚ :=
  match getField m "createdAt" with
  | some (.num (.finite q)) => q
  | _ => 0

/-- A row list is ordered by createdAt descending. -/
def CreatedAtDesc (l : List JSVal) : Prop :=
  l.Pairwise (fun a b => createdAtKey b ≤ createdAtKey a)

/-! ## Helper lemmas about the validity check -/

lemma typeof_not_nan_iff (o : Option JSVal) :
    (typeofNumber o = true ∧ (!optIsNaN o) = true) ↔
      ∃ n : JSNum, o = some (.num n) ∧ n ≠ .nan := by
  cases o with
  | none => simp [typeofNumber, optIsNaN]
  | some v =>
    cases v with
    | num n => cases n <;> simp [typeofNumber, optIsNaN, JSNum.isNaN]
    | str s => simp [typeofNumber, optIsNaN]
    | bool b => simp [typeofNumber, optIsNaN]
    | nullV => simp [typeofNumber, optIsNaN]
    | arr xs => simp [typeofNumber, optIsNaN]
    | obj fs => simp [typeofNumber, optIsNaN]

/-- isValidMemory, restated: the record is truthy, lat and lng are numbers
other than NaN, and the id field is truthy. Finiteness is not required. -/
lemma isValidMemory_eq_true_iff (m : JSVal) :
    isValidMemory m = true ↔
      (m.truthy = true ∧
       (∃ n : JSNum, getField m "lat" = some (.num n) ∧ n ≠ .nan) ∧
       (∃ n : JSNum, getField m "lng" = some (.num n) ∧ n ≠ .nan) ∧
       optTruthy (getField m "id") = true) := by
  unfold isValidMemory
  rw [Bool.and_eq_true, Bool.and_eq_true, Bool.and_eq_true, Bool.and_eq_true,
    Bool.and_eq_true]
  constructor
  · rintro ⟨⟨⟨⟨⟨ht, t1⟩, n1⟩, t2⟩, n2⟩, hid⟩
    exact ⟨ht, (typeof_not_nan_iff _).mp ⟨t1, n1⟩,
      (typeof_not_nan_iff _).mp ⟨t2, n2⟩, hid⟩
  · rintro ⟨ht, h1, h2, hid⟩
    obtain ⟨t1, n1⟩ := (typeof_not_nan_iff _).mpr h1
    obtain ⟨t2, n2⟩ := (typeof_not_nan_iff _).mpr h2
    exact ⟨⟨⟨⟨⟨ht, t1⟩, n1⟩, t2⟩, n2⟩, hid⟩

/-- Everything getLocalMemories returns passed the validity filter. -/
lemma getLocalMemories_valid (b : Blob) :
    ∀ x ∈ getLocalMemories b, isValidMemory x = true := by
  intro x hx
  cases b with
  | absent => exact absurd hx (List.not_mem_nil x)
  | unparsable => exact absurd hx (List.not_mem_nil x)
  | parsed v =>
    cases v with
    | arr xs => exact (List.mem_filter.mp hx).2
    | num n => exact absurd hx (List.not_mem_nil x)
    | str s => exact absurd hx (List.not_mem_nil x)
    | bool b => exact absurd hx (List.not_mem_nil x)
    | nullV => exact absurd hx (List.not_mem_nil x)
    | obj fs => exact absurd hx (List.not_mem_nil x)

/-! ## Concrete example records -/

/-- A fully valid raw record. -/
def mGood : JSVal :=
  .obj [("id", .str "g"), ("lat", .num (.finite 1)), ("lng", .num (.finite 2)),
    ("createdAt", .num (.finite 5))]

/-- A record whose lat is NaN. -/
def mNaN : JSVal :=
  .obj [("id", .str "n"), ("lat", .num .nan), ("lng", .num (.finite 0))]

/-- A record with no id field. -/
def mNoId : JSVal :=
  .obj [("lat", .num (.finite 0)), ("lng", .num (.finite 0))]

/-- A record whose lat is a string. -/
def mStrLat : JSVal :=
  .obj [("id", .str "y"), ("lat", .str "oops"), ("lng", .num (.finite 0))]

/-- A record whose lat is positive infinity: a number, not NaN, but not
finite. -/
def mInfLat : JSVal :=
  .obj [("id", .str "x"), ("lat", .num .posInf), ("lng", .num (.finite 0))]

/-- Row with createdAt 1. -/
def rowA : JSVal :=
  .obj [("id", .str "a"), ("lat", .num (.finite 0)), ("lng", .num (.finite 0)),
    ("createdAt", .num (.finite 1))]

/-- Row with createdAt 2. -/
def rowB : JSVal :=
  .obj [("id", .str "b"), ("lat", .num (.finite 0)), ("lng", .num (.finite 0)),
    ("createdAt", .num (.finite 2))]

/-- A blob holding rowA then rowB: valid records in createdAt-ascending
order. -/
def blobAB : Blob := .parsed (.arr [rowA, rowB])

/-! ## Claims C2, C5, C9, C10, C3 -/

/-- Claim C2, counterexample: the validity check accepts a record whose
lat is positive infinity (a number that is not NaN but also not finite);
such a record is persisted by addMemory in local mode (its infinite lat
serializing to null) and its marker is not dropped before display. -/
theorem claim2_counterexample :
    isValidMemory mInfLat = true ∧
    getField mInfLat "lat" = some (.num .posInf) ∧
    JSNum.isFinite .posInf = false ∧
    (addMemory false true true ⟨[], .absent⟩ mInfLat).blob =
      .parsed (.arr [.obj [("id", .str "x"), ("lat", .nullV),
        ("lng", .num (.finite 0))]]) ∧
    renderableMemories [mInfLat] = [mInfLat] :=
  ⟨rfl, rfl, rfl, rfl, rfl⟩

/-- Claim C2, amended: the validity check returns true iff lat and lng are
both numbers other than NaN (infinite values are accepted) and the record
and its id are truthy; a record failing this check is never persisted by
addMemory or updateMemory, and everything the local store returns passed
the check. -/
theorem claim2_validity (cfg remoteOk writeOk : Bool) (s : StoreState) (m : JSVal) :
    (isValidMemory m = true ↔
      (m.truthy = true ∧
       (∃ n : JSNum, getField m "lat" = some (.num n) ∧ n ≠ .nan) ∧
       (∃ n : JSNum, getField m "lng" = some (.num n) ∧ n ≠ .nan) ∧
       optTruthy (getField m "id") = true)) ∧
    (isValidMemory m = false →
      addMemory cfg remoteOk writeOk s m = s ∧
        updateMemory cfg remoteOk writeOk s m = s) ∧
    (∀ x ∈ getLocalMemories s.blob, isValidMemory x = true) := by
  refine ⟨isValidMemory_eq_true_iff m, ?_, getLocalMemories_valid s.blob⟩
  intro h
  constructor
  · simp [addMemory, h]
  · simp [updateMemory, h]

/-- Witness for claim C2: the record with a string lat fails the check and
is persisted by neither addMemory nor updateMemory. -/
theorem claim2_witness :
    addMemory false true true ⟨[], .absent⟩ mStrLat = ⟨[], .absent⟩ ∧
      updateMemory false true true ⟨[], .absent⟩ mStrLat = ⟨[], .absent⟩ :=
  (claim2_validity false true true ⟨[], .absent⟩ mStrLat).2.1 rfl

/-- Claim C5: getLocalMemories returns [] on an absent or unparsable blob
and on any parsed non-array value, and every returned entry has a non-NaN
numeric lat and lng and a truthy id; in particular entries with NaN lat,
non-numeric lat or lng, or a missing id never appear. -/
theorem claim5_readAll_safe :
    getLocalMemories .absent = [] ∧
    getLocalMemories .unparsable = [] ∧
    (∀ v : JSVal, (∀ xs, v ≠ .arr xs) → getLocalMemories (.parsed v) = []) ∧
    (∀ b : Blob, ∀ x ∈ getLocalMemories b,
      (∃ n : JSNum, getField x "lat" = some (.num n) ∧ n ≠ .nan) ∧
      (∃ n : JSNum, getField x "lng" = some (.num n) ∧ n ≠ .nan) ∧
      optTruthy (getField x "id") = true) := by
  refine ⟨rfl, rfl, ?_, ?_⟩
  · intro v hv
    cases v with
    | arr xs => exact absurd rfl (hv xs)
    | num n => rfl
    | str s => rfl
    | bool b => rfl
    | nullV => rfl
    | obj fs => rfl
  · intro b x hx
    have h := (isValidMemory_eq_true_iff x).mp (getLocalMemories_valid b x hx)
    exact ⟨h.2.1, h.2.2.1, h.2.2.2⟩

/-- Witness for claim C5: from a blob holding one valid record, one NaN-lat
record, one id-less record and one plain string, only the valid record
comes back, and it has the guaranteed shape. -/
theorem claim5_witness :
    getLocalMemories (.parsed (.arr [mGood, mNaN, mNoId, .str "junk"])) = [mGood] ∧
    ((∃ n : JSNum, getField mGood "lat" = some (.num n) ∧ n ≠ .nan) ∧
     (∃ n : JSNum, getField mGood "lng" = some (.num n) ∧ n ≠ .nan) ∧
     optTruthy (getField mGood "id") = true) :=
  ⟨rfl, claim5_readAll_safe.2.2.2 (.parsed (.arr [mGood, mNaN, mNoId, .str "junk"]))
    mGood (List.mem_singleton.mpr rfl)⟩

/-- Claim C9: in local-fallback mode deleteMemory returns true whether or
not the underlying localStorage write succeeds, and a failed write is
absorbed inside saveLocalMemories: addMemory and updateMemory return with
the state unchanged and no error value, so the caller cannot distinguish a
failed local persist from a successful one. -/
theorem claim9_write_failure_invisible (s : StoreState) (id : String)
    (ms : List JSVal) (m : JSVal) (remoteOk writeOk : Bool) :
    (deleteMemory false remoteOk writeOk s id).1 = true ∧
    (deleteMemory false remoteOk true s id).1 =
      (deleteMemory false remoteOk false s id).1 ∧
    saveLocalMemories s.blob ms false = s.blob ∧
    addMemory false remoteOk false s m = s ∧
    updateMemory false remoteOk false s m = s := by
  refine ⟨rfl, rfl, rfl, ?_, ?_⟩
  · cases h : isValidMemory m <;> simp [addMemory, h, saveLocalMemories]
  · cases h : isValidMemory m <;> simp [updateMemory, h, saveLocalMemories]

/-- Claim C10: every record getMemories returns passed the isValidMemory
check, in remote mode (the filter also runs on successfully fetched remote
rows), after a remote failure, and in local mode. -/
theorem claim10_only_valid (cfg : Bool) (f : RemoteFetch) (b : Blob) :
    ∀ x ∈ getMemories cfg f b, isValidMemory x = true := by
  intro x hx
  cases cfg with
  | false => exact getLocalMemories_valid b x hx
  | true =>
    cases f with
    | ok rows => exact (List.mem_filter.mp hx).2
    | err => exact getLocalMemories_valid b x hx

/-- Witness for claim C10: a remote response carrying an invalid row
reaches the caller with only the valid row, which passes the check. -/
theorem claim10_witness : isValidMemory mGood = true :=
  claim10_only_valid true (.ok [mGood, mNaN]) .absent mGood
    (List.mem_singleton.mpr rfl)

/-- Claim C3, counterexample: with the blob holding two valid records in
createdAt-ascending order, getMemories returns them in that stored order
after a remote failure and in local mode alike, so the result is not
ordered by createdAt descending. -/
theorem claim3_counterexample :
    getMemories true .err blobAB = [rowA, rowB] ∧
    getMemories false .err blobAB = [rowA, rowB] ∧
    ¬CreatedAtDesc [rowA, rowB] := by
  refine ⟨rfl, rfl, ?_⟩
  intro h
  have h2 := (List.pairwise_cons.mp h).1 rowB (List.mem_singleton.mpr rfl)
  have e1 : createdAtKey rowA = 1 := rfl
  have e2 : createdAtKey rowB = 2 := rfl
  rw [e1, e2] at h2
  norm_num at h2

/-- Claim C3, amended: in remote mode getMemories preserves the order of
the fetched rows (which the query requests as createdAt descending), so a
sorted response stays sorted after filtering; on remote failure and in
local mode it returns the local store's records in stored blob order,
without re-sorting. -/
theorem claim3_order (rows : List JSVal) (b : Blob) (f : RemoteFetch) :
    (CreatedAtDesc rows → CreatedAtDesc (getMemories true (.ok rows) b)) ∧
    getMemories true .err b = getLocalMemories b ∧
    getMemories false f b = getLocalMemories b := by
  refine ⟨?_, rfl, rfl⟩
  intro h
  exact List.Pairwise.sublist (List.filter_sublist rows) h

/-- Witness for claim C3: a sorted remote response stays sorted. -/
theorem claim3_witness : CreatedAtDesc (getMemories true (.ok [rowB, rowA]) .absent) :=
  (claim3_order [rowB, rowA] .absent .err).1
    (by
      refine List.Pairwise.cons ?_ (List.pairwise_singleton _ _)
      intro x hx
      rw [List.mem_singleton.mp hx]
      have e1 : createdAtKey rowA = 1 := rfl
      have e2 : createdAtKey rowB = 2 := rfl
      rw [e1, e2]
      norm_num)

/-! ## Application layer (App.tsx)

The coordinator works with records of the typed Memory interface
(types.ts); its handlers are modelled with the awaited outcomes of the
storage calls passed as explicit parameters. -/

/-- types.ts Photo. -/
structure Photo where
  id : String
  url : String
  caption : String
deriving DecidableEq

/-- types.ts Memory. -/
structure Memory where
  id : String
  lat : JSNum
  lng : JSNum
  locationName : String
  description : String
  photos : List Photo
  date : ℚ
  createdAt : ℚ
deriving DecidableEq

/-- The editor payload Omit Memory id createdAt handed to
handleSaveMemory. -/
structure MemoryData where
  lat : JSNum
  lng : JSNum
  locationName : String
  description : String
  photos : List Photo
  date : ℚ
deriving DecidableEq

/-- types.ts ViewState. -/
inductive ViewState where
  | map
  | detail (memoryId : String)
  | add (lat lng : JSNum)
  | album
deriving DecidableEq

/-- The coordinator state the delete and edit flows touch: the in-memory
record set and the view state. -/
structure AppState where
  memories : List Memory
  viewState : ViewState
deriving DecidableEq

/-- A typed Photo as a raw row. -/
def Photo.toVal (p : Photo) : JSVal :=
  .obj [("id", .str p.id), ("url", .str p.url), ("caption", .str p.caption)]

/-- A typed Memory as a raw row. -/
def Memory.toVal (m : Memory) : JSVal :=
  .obj [("id", .str m.id), ("lat", .num m.lat), ("lng", .num m.lng),
    ("locationName", .str m.locationName), ("description", .str m.description),
    ("photos", .arr (m.photos.map Photo.toVal)), ("date", .num (.finite m.date)),
    ("createdAt", .num (.finite m.createdAt))]

/-- App.tsx handleDeleteMemory: confirmed is the result of the confirm
dialog; outcome is the awaited deleteMemory result, none standing for a
rejected promise (caught, state untouched). Only a confirmed-true outcome
filters the record out and returns the view to MAP. -/
def handleDeleteMemory (st : AppState) (id : String) (confirmed : Bool)
    (outcome : Option Bool) : AppState :=
  if confirmed then
    match outcome with
    | some true =>
      { memories := st.memories.filter (fun m => m.id != id),
        viewState := ViewState.map }
    | some false => st
    | none => st
  else st

/-- App.tsx handleSaveMemory, edit branch: spread the edited fields over
the existing record, keeping id and createdAt from the existing record. -/
def mergeMemory (initial : Memory) (d : MemoryData) : Memory :=
  { id := initial.id, lat := d.lat, lng := d.lng,
    locationName := d.locationName, description := d.description,
    photos := d.photos, date := d.date, createdAt := initial.createdAt }

/-- App.tsx handleSaveMemory, edit branch: call updateMemory on the store,
then optimistically replace the record in the in-memory set whatever the
update call's outcome was. -/
def handleSaveMemoryEdit (st : AppState) (s : StoreState)
    (cfg remoteOk writeOk : Bool) (initial : Memory) (d : MemoryData) :
    AppState × StoreState :=
  let updated := mergeMemory initial d
  ({ st with memories :=
      st.memories.map (fun m => if m.id = updated.id then updated else m) },
   updateMemory cfg remoteOk writeOk s updated.toVal)

/-! ## Search filter (App.tsx filteredMemories) -/

/-- needle is a prefix of hay (character-by-character comparison). -/
def leadsWith : List Char → List Char → Bool
  | [], _ => true
  | _ :: _, [] => false
  | a :: as, b :: bs => if a = b then leadsWith as bs else false

/-- JavaScript String.prototype.includes over character lists. -/
def hasSub (needle : List Char) : List Char → Bool
  | [] => leadsWith needle []
  | c :: t => leadsWith needle (c :: t) || hasSub needle t

/-- toLowerCase of a string, as a character list. -/
def lowerChars (s : String) : List Char := s.toList.map Char.toLower

/-- JavaScript String.prototype.trim over character lists. -/
def trimChars (s : List Char) : List Char :=
  ((s.dropWhile Char.isWhitespace).reverse.dropWhile Char.isWhitespace).reverse

/-- App.tsx filteredMemories: if the trimmed query is empty return the
record set itself, otherwise filter on a case-insensitive substring match
of the untrimmed query against locationName and description. -/
def filteredMemories (query : List Char) (ms : List Memory) : List Memory :=
  if trimChars query = [] then ms
  else
    ms.filter (fun m =>
      hasSub (query.map Char.toLower) (lowerChars m.locationName) ||
      hasSub (query.map Char.toLower) (lowerChars m.description))

/-- hay starts with needle iff hay splits as needle followed by a tail. -/
lemma leadsWith_iff (n : List Char) :
    ∀ h : List Char, leadsWith n h = true ↔ ∃ t, h = n ++ t := by
  induction n with
  | nil => intro h; simp [leadsWith]
  | cons a as ih =>
    intro h
    cases h with
    | nil =>
      simp only [leadsWith]
      constructor
      · intro hF; exact Bool.noConfusion hF
      · rintro ⟨t, ht⟩; exact List.noConfusion ht
    | cons b bs =>
      simp only [leadsWith]
      by_cases hab : a = b
      · subst hab
        rw [if_pos rfl, ih bs]
        constructor
        · rintro ⟨t, ht⟩; exact ⟨t, by rw [List.cons_append, ht]⟩
        · rintro ⟨t, ht⟩
          rw [List.cons_append] at ht
          injection ht with h1 h2
          exact ⟨t, h2⟩
      · rw [if_neg hab]
        constructor
        · intro hF; exact Bool.noConfusion hF
        · rintro ⟨t, ht⟩
          rw [List.cons_append] at ht
          injection ht with h1 h2
          exact absurd h1.symm hab

/-- The substring test succeeds iff the haystack decomposes around the
needle. -/
lemma hasSub_iff (n : List Char) :
    ∀ h : List Char, hasSub n h = true ↔ ∃ l r, h = l ++ n ++ r := by
  intro h
  induction h with
  | nil =>
    simp only [hasSub]
    rw [leadsWith_iff]
    constructor
    · rintro ⟨t, ht⟩; exact ⟨[], t, by simpa using ht⟩
    · rintro ⟨l, r, hlr⟩
      obtain ⟨h1, h2⟩ := List.append_eq_nil.mp hlr.symm
      obtain ⟨h3, h4⟩ := List.append_eq_nil.mp h1
      exact ⟨[], by rw [h4]; rfl⟩
  | cons c t ih =>
    simp only [hasSub, Bool.or_eq_true]
    rw [leadsWith_iff, ih]
    constructor
    · rintro (⟨r, hr⟩ | ⟨l, r, hlr⟩)
      · exact ⟨[], r, by simpa using hr⟩
      · exact ⟨c :: l, r, by rw [hlr]; rfl⟩
    · rintro ⟨l, r, hlr⟩
      cases l with
      | nil =>
        left
        exact ⟨r, by simpa using hlr⟩
      | cons x l2 =>
        right
        rw [List.cons_append, List.cons_append] at hlr
        injection hlr with h1 h2
        exact ⟨l2, r, h2⟩

/-- hay contains the query as a case-insensitive substring: the lowercased
hay decomposes around the lowercased query. -/
def ContainsCI (hay : String) (q : List Char) : Prop :=
  ∃ l r, lowerChars hay = l ++ q.map Char.toLower ++ r

/-! ## Claims C4, C7, C8 -/

/-- Claim C4: the delete flow removes the record and returns to MAP
exactly when the confirmed deleteMemory call resolves true; a false result
or a rejected call leaves the record set and the view unchanged. -/
theorem claim4_delete_gated (st : AppState) (id : String) (c : Bool)
    (o : Option Bool) :
    (c = true → o = some true →
      handleDeleteMemory st id c o =
        { memories := st.memories.filter (fun m => m.id != id),
          viewState := ViewState.map }) ∧
    (o = some false ∨ o = none → handleDeleteMemory st id c o = st) := by
  constructor
  · rintro rfl rfl
    rfl
  · rintro (rfl | rfl)
    · cases c <;> rfl
    · cases c <;> rfl

/-- A typed record containing no space in either searched field. -/
def mAbc : Memory :=
  { id := "m1", lat := .finite 0, lng := .finite 0, locationName := "abc",
    description := "xyz", photos := [], date := 0, createdAt := 0 }

/-- A one-record coordinator state sitting on the DETAIL view. -/
def stEx : AppState := { memories := [mAbc], viewState := .detail "m1" }

/-- Witness for claim C4: on the concrete one-record state, a false and a
rejected outcome leave everything unchanged, and a true outcome empties
the set and returns to MAP. -/
theorem claim4_witness :
    handleDeleteMemory stEx "m1" true (some false) = stEx ∧
    handleDeleteMemory stEx "m1" true none = stEx ∧
    handleDeleteMemory stEx "m1" true (some true) =
      { memories := [], viewState := ViewState.map } :=
  ⟨(claim4_delete_gated stEx "m1" true (some false)).2 (Or.inl rfl),
   (claim4_delete_gated stEx "m1" true none).2 (Or.inr rfl),
   (claim4_delete_gated stEx "m1" true (some true)).1 rfl rfl⟩

/-- Claim C7: the edit-save path keeps id and createdAt from the existing
record, takes every other field from the edited data, and replaces the
record in the in-memory set by id; the replacement does not depend on the
mode or outcome of the store's update call. -/
theorem claim7_edit_merge (st : AppState) (s : StoreState)
    (cfg remoteOk writeOk : Bool) (initial : Memory) (d : MemoryData) :
    (mergeMemory initial d).id = initial.id ∧
    (mergeMemory initial d).createdAt = initial.createdAt ∧
    (mergeMemory initial d).lat = d.lat ∧
    (mergeMemory initial d).lng = d.lng ∧
    (mergeMemory initial d).locationName = d.locationName ∧
    (mergeMemory initial d).description = d.description ∧
    (mergeMemory initial d).photos = d.photos ∧
    (mergeMemory initial d).date = d.date ∧
    (handleSaveMemoryEdit st s cfg remoteOk writeOk initial d).1 =
      { st with memories :=
          (st.memories.map (fun m =>
            if m.id = (mergeMemory initial d).id then mergeMemory initial d
            else m)) } :=
  ⟨rfl, rfl, rfl, rfl, rfl, rfl, rfl, rfl, rfl⟩

/-- Claim C8, counterexample: the whitespace-only query consisting of one
space has an empty trim, so the filter returns the full set, although the
record contains no space in either searched field; so the filter does not
return exactly the records containing the query as a case-insensitive
substring. -/
theorem claim8_counterexample :
    filteredMemories [' '] stEx.memories = stEx.memories ∧
    ¬ContainsCI "abc" [' '] ∧
    ¬ContainsCI "xyz" [' '] := by
  refine ⟨rfl, ?_, ?_⟩
  · rintro ⟨l, r, h⟩
    have hs : hasSub ([' '].map Char.toLower) (lowerChars "abc") = true :=
      (hasSub_iff _ _).mpr ⟨l, r, h⟩
    have he : hasSub ([' '].map Char.toLower) (lowerChars "abc") = false := rfl
    rw [he] at hs
    exact Bool.noConfusion hs
  · rintro ⟨l, r, h⟩
    have hs : hasSub ([' '].map Char.toLower) (lowerChars "xyz") = true :=
      (hasSub_iff _ _).mpr ⟨l, r, h⟩
    have he : hasSub ([' '].map Char.toLower) (lowerChars "xyz") = false := rfl
    rw [he] at hs
    exact Bool.noConfusion hs

/-- Claim C8, amended: the filter is a pure function of the query and the
record set; a query whose trim is empty returns the full set unchanged;
the result is always a sublist of the set (original order, set untouched);
and for a query with nonempty trim a record is kept exactly when its
locationName or description contains the untrimmed query as a
case-insensitive substring. -/
theorem claim8_search (q : List Char) (ms : List Memory) :
    (trimChars q = [] → filteredMemories q ms = ms) ∧
    List.Sublist (filteredMemories q ms) ms ∧
    (trimChars q ≠ [] → ∀ m : Memory,
      m ∈ filteredMemories q ms ↔
        m ∈ ms ∧ (ContainsCI m.locationName q ∨ ContainsCI m.description q)) := by
  refine ⟨?_, ?_, ?_⟩
  · intro h
    unfold filteredMemories
    rw [if_pos h]
  · unfold filteredMemories
    by_cases h : trimChars q = []
    · rw [if_pos h]
    · rw [if_neg h]
      exact List.filter_sublist ms
  · intro h m
    unfold filteredMemories
    rw [if_neg h]
    simp only [List.mem_filter, Bool.or_eq_true, hasSub_iff]
    exact Iff.rfl

/-- Witness for claim C8: the one-letter query b, whose trim is nonempty,
keeps the record whose locationName abc contains b. -/
theorem claim8_witness : mAbc ∈ filteredMemories ['b'] [mAbc] :=
  ((claim8_search ['b'] [mAbc]).2.2
      (by intro hEq; exact List.noConfusion hEq) mAbc).mpr
    ⟨List.mem_singleton.mpr rfl, Or.inl ⟨['a'], ['c'], rfl⟩⟩

end WanderMap
